import Mathlib

/-!
Verification development for the bdix-list connectivity-testing utility.

The repository probes a catalog of network endpoints for reachability.
This file gives a shallow embedding of its pure logic:

* the two deduplication routines (the `Set`-filter one in `listUpUrls` /
  `fastCheck`, and the `Map`-based one in `runAdvancedPingTest`),
* the batch partitioning loop of `runAdvancedPingTest`,
* host extraction (`extractHostAndPort`, `extractHostname`) with the
  regex fallback,
* latency statistics (`calculateStatistics`) and the multi-attempt
  prober (`advancedPingUrl`), with network I/O modelled as oracles,
* the single-attempt HTTP prober (`pingUrl` of test-ping.ts),
* the success-rate aggregation, with JavaScript division modelled
  exactly (0/0 is NaN, not an error),
* the ascending-latency sorting of reachable endpoints.

Machine numbers are idealised as rationals (ℚ); the standard deviation,
produced by Math.sqrt, lives in ℝ.  Where JavaScript division by zero
matters the number domain `JSNum` with NaN and infinities is used.
-/

namespace Bdix

/-- An endpoint catalog entry (`UrlEntry` in every source file). -/
structure UrlEntry where
  name : String
  url : String
  type : String
deriving DecidableEq, Repr

/-- Endpoint classification (`'UP' | 'DOWN' | 'PARTIAL'`). -/
inductive Status where
  | UP
  | DOWN
  | PARTIAL
deriving DecidableEq, Repr

/-! ### Deduplication

`listUpUrls` (src/unnamed/part_000) and `fastCheck` (src/unnamed/part_001)
deduplicate with a `seen` set and `Array.prototype.filter`:

    const seen = new Set();
    const uniqueUrls = urls.filter(item =>
      seen.has(item.url) ? false : (seen.add(item.url), true));

`runAdvancedPingTest` (src/list.ts) instead builds a JavaScript `Map`:

    Array.from(new Map(urls.map(item => [item.url, item])).values())

A JavaScript `Map` keeps the position of the first insertion of a key but
overwrites its value on re-insertion, so the `Map` route keeps the LAST
entry carrying each address, placed at the first-seen position. -/

/-- The `seen`-set filter of `listUpUrls`/`fastCheck`: keep an entry iff its
url is not in `seen`, adding kept urls to `seen` as the scan proceeds. -/
def dedupFilter (seen : List String) : List UrlEntry → List UrlEntry
  | [] => []
  | x :: xs =>
    if x.url ∈ seen then dedupFilter seen xs
    else x :: dedupFilter (x.url :: seen) xs

/-- `Map.prototype.set` on an association list: overwrite the value in place
when the key is present, append otherwise. -/
def mapSet : List (String × UrlEntry) → String → UrlEntry → List (String × UrlEntry)
  | [], k, v => [(k, v)]
  | (k₁, v₁) :: rest, k, v =>
    if k₁ = k then (k₁, v) :: rest else (k₁, v₁) :: mapSet rest k v

/-- `new Map(urls.map(item => [item.url, item]))` : insert every entry in
order, keyed by its url. -/
def buildMap (l : List UrlEntry) : List (String × UrlEntry) :=
  l.foldl (fun m item => mapSet m item.url item) []

/-- The `Map`-based deduplication of `runAdvancedPingTest`:
`Array.from(new Map(...).values())`. -/
def dedupMap (l : List UrlEntry) : List UrlEntry :=
  (buildMap l).map Prod.snd

/-- Modelled from the spec: the deduplication the spec describes — one entry
per distinct address, first-seen order, the kept entry being the FIRST
occurrence of its address.  Used as the refinement target for claim C1. -/
def dedupFirstSpec (l : List UrlEntry) : List UrlEntry :=
  l.foldl (fun acc x => if x.url ∈ acc.map UrlEntry.url then acc else acc ++ [x]) []

/-! ### Batch partitioning

`runAdvancedPingTest` walks the unique list in strides of `batchSize`:

    for (let i = 0; i < uniqueUrls.length; i += config.batchSize) {
      const batch = uniqueUrls.slice(i, i + config.batchSize);
      const batchResults = await Promise.all(batch.map(e => advancedPingUrl(e, config)));
      results.push(...batchResults);
    }
-/

/-- The stride loop above, as structural recursion: each iteration takes the
next `b` elements.  The source loop does not terminate when `b = 0` (the
stride never advances); that case, unreachable for the configurations in the
repository, is mapped to `[]` here and excluded by hypothesis in every
theorem. -/
def sliceBatches : List UrlEntry → ℕ → List (List UrlEntry)
  | [], _ => []
  | _ :: _, 0 => []
  | x :: xs, b + 1 => (x :: xs).take (b + 1) :: sliceBatches ((x :: xs).drop (b + 1)) (b + 1)
termination_by l => l.length
decreasing_by simp; omega

/-- The results list accumulated across batches: batch `k`'s `Promise.all`
results are appended in full before batch `k+1` runs. -/
def batchedResults {β : Type} (probeFn : UrlEntry → β) (l : List UrlEntry) (b : ℕ) : List β :=
  ((sliceBatches l b).map (List.map probeFn)).flatten

/-! ### JavaScript numbers, where division by zero matters

The success-rate computations divide by a length with no zero guard:

    ((upSites.length / results.length) * 100)          // fastCheck
    ((upUrls.length / uniqueUrls.length) * 100)        // listUpUrls

In JavaScript `0/0` is `NaN` and `x/0` is `±Infinity`; no exception is
raised.  `JSNum` models exactly the arithmetic these expressions use. -/

/-- A JavaScript number: a finite value, an infinity, or NaN. -/
inductive JSNum where
  | nan
  | inf
  | negInf
  | num (q : ℚ)
deriving DecidableEq, Repr

/-- JavaScript division, elaborated on the finite/finite case (the only one
the embedded expressions reach); NaN is absorbing. -/
def JSNum.div (x y : JSNum) : JSNum :=
  match x, y with
  | num a, num b =>
    if b = 0 then (if a = 0 then nan else if 0 < a then inf else negInf)
    else num (a / b)
  | inf, num b => if b = 0 then nan else if 0 < b then inf else negInf
  | negInf, num b => if b = 0 then nan else if 0 < b then negInf else inf
  | _, _ => nan

/-- JavaScript multiplication on the cases the embedded expressions reach;
NaN is absorbing and `Infinity * 0` is NaN. -/
def JSNum.mul (x y : JSNum) : JSNum :=
  match x, y with
  | num a, num b => num (a * b)
  | inf, num b => if b = 0 then nan else if 0 < b then inf else negInf
  | num a, inf => if a = 0 then nan else if 0 < a then inf else negInf
  | negInf, num b => if b = 0 then nan else if 0 < b then negInf else inf
  | num a, negInf => if a = 0 then nan else if 0 < a then negInf else inf
  | inf, inf => inf
  | negInf, negInf => inf
  | inf, negInf => negInf
  | negInf, inf => negInf
  | _, _ => nan

/-- The success rate `((up / total) * 100)` as JavaScript computes it. -/
def successRateJS (up total : ℕ) : JSNum :=
  JSNum.mul (JSNum.div (JSNum.num up) (JSNum.num total)) (JSNum.num 100)

/-- One outcome of `quickPing` in `fastCheck` (src/unnamed/part_001). -/
structure SimpleResult where
  url : String
  name : String
  status : Status
  responseTime : ℚ
deriving DecidableEq, Repr

/-- The summary block `fastCheck` assembles from the collected results:
counts by status and `successRate: (upSites.length / results.length) * 100`. -/
structure FastSummary where
  total : ℕ
  up : ℕ
  down : ℕ
  successRate : JSNum
deriving DecidableEq, Repr

/-- The aggregation step of `fastCheck` over the full result set. -/
def fastCheckSummary (results : List SimpleResult) : FastSummary :=
  let upSites := results.filter (fun r => r.status = Status.UP)
  let downSites := results.filter (fun r => r.status = Status.DOWN)
  { total := results.length
    up := upSites.length
    down := downSites.length
    successRate := successRateJS upSites.length results.length }

/-- The success rate `listUpUrls` reports:
`(upUrls.length / uniqueUrls.length) * 100` where `uniqueUrls` is the
deduplicated catalog and `upUrls` filters it by the probe verdict. -/
def listUpSuccessRate (urls : List UrlEntry) (isUp : UrlEntry → Bool) : JSNum :=
  let uniqueUrls := dedupFilter [] urls
  let upUrls := uniqueUrls.filter isUp
  successRateJS upUrls.length uniqueUrls.length

/-! ### Host extraction

src/list.ts `extractHostAndPort` tries the WHATWG `new URL` parser, then a
regex fallback, then throws:

    try { const url = new URL(urlString); return { hostname, port, isHttps }; }
    catch {
      const match = urlString.match(/^https?:\x2f\x2f([^:\x2f]+)(?::(\d+))?/);
      if (match && match[1]) return { ... };
      throw new Error('Invalid URL format');
    }

The platform URL parser is not repository code; it enters the model as an
oracle `parseURL : String → Option URLParts`, `none` meaning the constructor
throws.  The fallback regex is embedded exactly. -/

/-- What the embedding uses of a parsed WHATWG URL: `url.hostname`,
`url.port` (`none` for the empty default-port string), `url.protocol`. -/
structure URLParts where
  hostname : String
  port : Option ℕ
  protocol : String
deriving DecidableEq, Repr

/-- Digit-string to number, as `parseInt` acts on an all-digit string. -/
def parseDigits (s : String) : ℕ :=
  s.data.foldl (fun n c => n * 10 + (c.toNat - 48)) 0

/-- The fallback regex match against
`^https?:\x2f\x2f([^:\x2f]+)(?::(\d+))?` : group 1 is the maximal nonempty
run after the scheme free of colon and slash; group 2 is a digit run after a
colon when present. -/
def fallbackMatch (s : String) : Option (String × Option String) :=
  let rest? : Option String :=
    if s.startsWith "https://" then some (s.drop 8)
    else if s.startsWith "http://" then some (s.drop 7)
    else none
  match rest? with
  | none => none
  | some rest =>
    let host := rest.takeWhile (fun c => c ≠ ':' ∧ c ≠ '/')
    if host = "" then none
    else
      let after := rest.drop host.length
      if after.startsWith ":" then
        let digits := (after.drop 1).takeWhile Char.isDigit
        if digits = "" then some (host, none) else some (host, some digits)
      else some (host, none)

/-- The value `extractHostAndPort` returns. -/
structure HostPort where
  hostname : String
  port : ℕ
  isHttps : Bool
deriving DecidableEq, Repr

/-- src/list.ts `extractHostAndPort`, with the platform parser as an oracle.
`Except.error` models the `throw new Error('Invalid URL format')`. -/
def extractHostAndPort (parseURL : String → Option URLParts) (urlString : String) :
    Except String HostPort :=
  match parseURL urlString with
  | some u =>
    Except.ok
      { hostname := u.hostname
        port := match u.port with
          | some p => p
          | none => if u.protocol = "https:" then 443 else 80
        isHttps := u.protocol = "https:" }
  | none =>
    match fallbackMatch urlString with
    | some (host, portStr) =>
      Except.ok
        { hostname := host
          port := match portStr with
            | some d => parseDigits d
            | none => if urlString.startsWith "https" then 443 else 80
          isHttps := urlString.startsWith "https" }
    | none => Except.error "Invalid URL format"

/-! ### Latency statistics and the multi-attempt prober (src/list.ts) -/

/-- The `PingStatistics` record.  min/max/avg/loss are exact rationals; the
standard deviation comes from `Math.sqrt` and lives in ℝ. -/
structure PingStatistics where
  min : ℚ
  max : ℚ
  avg : ℚ
  stddev : ℝ
  loss : ℚ

/-- src/list.ts `calculateStatistics`: on an empty sample list return all
zeros with loss 100; otherwise min, max, arithmetic mean, population
standard deviation, and loss 0 (the caller overwrites loss afterwards). -/
noncomputable def calculateStatistics (times : List ℚ) : PingStatistics :=
  match times with
  | [] => { min := 0, max := 0, avg := 0, stddev := 0, loss := 100 }
  | t :: ts =>
    let min := ts.foldl Min.min t
    let max := ts.foldl Max.max t
    let n : ℚ := (t :: ts).length
    let avg := (t :: ts).sum / n
    let variance := ((t :: ts).map (fun x => (x - avg) ^ 2)).sum / n
    { min := min, max := max, avg := avg, stddev := Real.sqrt (variance : ℝ), loss := 0 }

/-- The probing configuration (`PingConfig`). -/
structure PingConfig where
  attempts : ℕ
  timeout : ℚ
  interval : ℚ
  batchSize : ℕ
  enableDnsLookup : Bool
  enablePortCheck : Bool
deriving DecidableEq, Repr

/-- The outcome the `ping` library hands back for one attempt: either a
probe result (alive flag and reported time) or a thrown error. -/
inductive ProbeOutcome where
  | ok (alive : Bool) (time : ℚ)
  | err (msg : String)
deriving DecidableEq, Repr

/-- One slot of `rawPingResults`. -/
structure RawPing where
  alive : Bool
  time : ℚ
  attempt : ℕ
deriving DecidableEq, Repr

/-- DNS lookup information (`DnsInfo`). -/
structure DnsInfo where
  ip : Option String
  hostname : String
  resolveTime : ℚ
  error : Option String
deriving DecidableEq, Repr

/-- The full per-endpoint record (`PingResult`) of src/list.ts. -/
structure PingResult where
  url : String
  name : String
  type : String
  status : Status
  attempts : ℕ
  successfulPings : ℕ
  statistics : PingStatistics
  dnsInfo : DnsInfo
  port : Option ℕ
  isHttps : Bool
  totalTime : ℚ
  timestamp : String
  error : Option String
  rawPingResults : List RawPing

/-- The attempt loop of `advancedPingUrl`: iteration `i` pushes one slot —
from the probe result in the try branch, or `alive: false` with
`time: config.timeout` in the catch branch. -/
def rawResults (cfg : PingConfig) (probe : ℕ → ProbeOutcome) : List RawPing :=
  (List.range cfg.attempts).map fun i =>
    match probe i with
    | ProbeOutcome.ok alive t => { alive := alive, time := t, attempt := i + 1 }
    | ProbeOutcome.err _ => { alive := false, time := cfg.timeout, attempt := i + 1 }

/-- src/list.ts `advancedPingUrl`.  Network effects enter as oracles: the
URL parser, the per-attempt probe outcome, the DNS answer, and the measured
wall-clock total.  The `Except.error` branch of host extraction lands in the
outer catch, which builds the DOWN record with loss 100. -/
noncomputable def advancedPingUrl (entry : UrlEntry) (cfg : PingConfig)
    (parseURL : String → Option URLParts) (probe : ℕ → ProbeOutcome)
    (dnsAnswer : String → DnsInfo) (totalTime : ℚ) (timestamp : String) : PingResult :=
  match extractHostAndPort parseURL entry.url with
  | Except.ok hp =>
    let dnsInfo :=
      if cfg.enableDnsLookup then dnsAnswer hp.hostname
      else { ip := none, hostname := hp.hostname, resolveTime := 0, error := none }
    let raw := rawResults cfg probe
    let successfulTimes := (raw.filter (fun r => r.alive)).map RawPing.time
    let successfulPings := successfulTimes.length
    let stats0 := calculateStatistics successfulTimes
    let stats :=
      { stats0 with loss := (((cfg.attempts : ℚ) - successfulPings) / cfg.attempts) * 100 }
    let status :=
      if successfulPings = cfg.attempts then Status.UP
      else if 0 < successfulPings then Status.PARTIAL
      else Status.DOWN
    { url := entry.url, name := entry.name, type := entry.type, status := status
      attempts := cfg.attempts, successfulPings := successfulPings, statistics := stats
      dnsInfo := dnsInfo, port := some hp.port, isHttps := hp.isHttps
      totalTime := totalTime, timestamp := timestamp, error := none, rawPingResults := raw }
  | Except.error msg =>
    { url := entry.url, name := entry.name, type := entry.type, status := Status.DOWN
      attempts := cfg.attempts, successfulPings := 0
      statistics := { min := 0, max := 0, avg := 0, stddev := 0, loss := 100 }
      dnsInfo := { ip := none, hostname := entry.url, resolveTime := 0, error := none }
      port := none, isHttps := false, totalTime := totalTime, timestamp := timestamp
      error := some msg, rawPingResults := [] }

/-! ### The single-attempt HTTP prober (src/test-ping.ts) -/

/-- What `pingUrl` uses of a fetch response. -/
structure FetchResponse where
  ok : Bool
  status : ℕ
deriving DecidableEq, Repr

/-- The `PingResult` record of src/test-ping.ts. -/
structure TestPingResult where
  url : String
  name : String
  type : String
  status : Status
  responseTime : ℚ
  statusCode : Option ℕ
  error : Option String
deriving DecidableEq, Repr

/-- src/test-ping.ts `pingUrl`: try a HEAD fetch; if it throws, try GET; if
that also throws, the outer catch returns a DOWN record with the elapsed
time and the error message.  Fetch outcomes and elapsed times are oracles. -/
def pingUrl (entry : UrlEntry) (headFetch getFetch : Except String FetchResponse)
    (elapsedOk elapsedErr : ℚ) : TestPingResult :=
  let attempt : Except String FetchResponse :=
    match headFetch with
    | Except.ok r => Except.ok r
    | Except.error _ => getFetch
  match attempt with
  | Except.ok response =>
    { url := entry.url, name := entry.name, type := entry.type
      status := if response.ok then Status.UP else Status.DOWN
      responseTime := elapsedOk, statusCode := some response.status, error := none }
  | Except.error msg =>
    { url := entry.url, name := entry.name, type := entry.type, status := Status.DOWN
      responseTime := elapsedErr, statusCode := none, error := some msg }

/-! ### Sorting reachable endpoints by latency

`fastCheck` sorts the reachable results with
`upSites.sort((a, b) => a.responseTime - b.responseTime)` and the advanced
report sorts with `upResults.sort((a, b) => a.statistics.avg - b.statistics.avg)`.
`Array.prototype.sort` with a numeric comparator produces a stable,
nondecreasing arrangement; it is modelled by stable insertion sort on the
comparator key. -/

/-- The reachable-endpoint list of `fastCheck`, sorted ascending by
response time. -/
def upSitesSorted (results : List SimpleResult) : List SimpleResult :=
  (results.filter (fun r => r.status = Status.UP)).insertionSort
    (fun a b => a.responseTime ≤ b.responseTime)

/-- The reachable-endpoint list of the advanced report, sorted ascending by
average latency. -/
def upResultsSorted (results : List PingResult) : List PingResult :=
  (results.filter (fun r => r.status = Status.UP)).insertionSort
    (fun a b => a.statistics.avg ≤ b.statistics.avg)

/-- The `DEFAULT_CONFIG` constant of src/list.ts. -/
def DEFAULT_CONFIG : PingConfig :=
  { attempts := 5, timeout := 5000, interval := 500, batchSize := 8
    enableDnsLookup := true, enablePortCheck := true }

/-- A sample catalog entry for closed instances. -/
def sampleEntry : UrlEntry :=
  { name := "Sample", url := "http://a.example", type := "FTP" }

/-- A catalog entry whose address neither the URL parser nor the regex
fallback accepts. -/
def badEntry : UrlEntry :=
  { name := "Bad", url := "not a url", type := "UNKNOWN" }

/-- Parser oracle resolving every address to host a.example, default http
port. -/
def sampleParse : String → Option URLParts :=
  fun _ => some { hostname := "a.example", port := none, protocol := "http:" }

/-- Parser oracle on which the URL constructor always throws. -/
def noParse : String → Option URLParts := fun _ => none

/-- Probe oracle: attempts 0, 1 and 2 come back alive at 10 ms, the later
ones dead. -/
def sampleProbe3of5 : ℕ → ProbeOutcome :=
  fun i => ProbeOutcome.ok (decide (i < 3)) 10

/-- Probe oracle on which every attempt throws. -/
def errProbe : ℕ → ProbeOutcome := fun _ => ProbeOutcome.err "socket error"

/-- DNS oracle with an instant resolution. -/
def sampleDns : String → DnsInfo :=
  fun h => { ip := some "10.0.0.1", hostname := h, resolveTime := 1, error := none }

/-! ## Theorems -/

/-! ### Deduplication lemmas -/

/-- The filter-based deduplication only consults `seen` through membership. -/
lemma dedupFilter_congr (xs : List UrlEntry) : ∀ {s₁ s₂ : List String},
    (∀ u, u ∈ s₁ ↔ u ∈ s₂) → dedupFilter s₁ xs = dedupFilter s₂ xs := by
  induction xs with
  | nil => intro s₁ s₂ _; rfl
  | cons x xs ih =>
    intro s₁ s₂ h
    simp only [dedupFilter]
    by_cases hx : x.url ∈ s₁
    · rw [if_pos hx, if_pos ((h _).mp hx)]; exact ih h
    · rw [if_neg hx, if_neg (fun c => hx ((h _).mpr c))]
      refine congrArg (x :: ·) (ih fun u => ?_)
      simp only [List.mem_cons]
      exact or_congr Iff.rfl (h u)

/-- Entries surviving the filter-based deduplication were not in `seen`. -/
lemma not_seen_of_mem_dedupFilter (xs : List UrlEntry) : ∀ {seen : List String}
    {e : UrlEntry}, e ∈ dedupFilter seen xs → e.url ∉ seen := by
  induction xs with
  | nil => intro seen e he; simp [dedupFilter] at he
  | cons x xs ih =>
    intro seen e he
    simp only [dedupFilter] at he
    by_cases hx : x.url ∈ seen
    · rw [if_pos hx] at he; exact ih he
    · rw [if_neg hx] at he
      rcases List.mem_cons.mp he with rfl | he₁
      · exact hx
      · exact fun c => ih he₁ (List.mem_cons_of_mem _ c)

/-- The filter-based deduplication emits pairwise-distinct addresses. -/
lemma dedupFilter_map_url_nodup (xs : List UrlEntry) : ∀ (seen : List String),
    ((dedupFilter seen xs).map UrlEntry.url).Nodup := by
  induction xs with
  | nil => intro seen; simp [dedupFilter]
  | cons x xs ih =>
    intro seen
    simp only [dedupFilter]
    by_cases hx : x.url ∈ seen
    · rw [if_pos hx]; exact ih seen
    · rw [if_neg hx]
      simp only [List.map_cons, List.nodup_cons]
      refine ⟨fun hmem => ?_, ih _⟩
      rcases List.mem_map.mp hmem with ⟨e, he, heq⟩
      exact not_seen_of_mem_dedupFilter xs he (by rw [heq]; exact List.mem_cons_self _ _)

/-- On an address-distinct list disjoint from `seen` the filter-based
deduplication is the identity. -/
lemma dedupFilter_eq_self (xs : List UrlEntry) : ∀ (seen : List String),
    (xs.map UrlEntry.url).Nodup → (∀ e ∈ xs, e.url ∉ seen) →
    dedupFilter seen xs = xs := by
  induction xs with
  | nil => intro seen _ _; rfl
  | cons x xs ih =>
    intro seen hnd hdisj
    simp only [List.map_cons, List.nodup_cons] at hnd
    simp only [dedupFilter, if_neg (hdisj x (List.mem_cons_self x xs))]
    refine congrArg (x :: ·) (ih _ hnd.2 ?_)
    intro e he
    simp only [List.mem_cons]
    rintro (h₁ | h₁)
    · exact hnd.1 (List.mem_map.mpr ⟨e, he, h₁⟩)
    · exact hdisj e (List.mem_cons_of_mem _ he) h₁

/-- The filter-based deduplication never lengthens the list. -/
lemma dedupFilter_length_le (xs : List UrlEntry) : ∀ (seen : List String),
    (dedupFilter seen xs).length ≤ xs.length := by
  induction xs with
  | nil => intro seen; simp [dedupFilter]
  | cons x xs ih =>
    intro seen
    simp only [dedupFilter, List.length_cons]
    by_cases hx : x.url ∈ seen
    · rw [if_pos hx]; exact (ih seen).trans (Nat.le_succ _)
    · rw [if_neg hx]; simpa using Nat.succ_le_succ (ih (x.url :: seen))

/-- The fold in `dedupFirstSpec` agrees with the filter-based scan. -/
lemma foldl_dedupFirstSpec (xs : List UrlEntry) : ∀ (acc : List UrlEntry),
    xs.foldl (fun acc x => if x.url ∈ acc.map UrlEntry.url then acc else acc ++ [x]) acc =
      acc ++ dedupFilter (acc.map UrlEntry.url) xs := by
  induction xs with
  | nil => intro acc; simp [dedupFilter]
  | cons x xs ih =>
    intro acc
    simp only [List.foldl_cons]
    by_cases hx : x.url ∈ acc.map UrlEntry.url
    · rw [if_pos hx, ih acc]
      simp only [dedupFilter, if_pos hx]
    · rw [if_neg hx, ih (acc ++ [x])]
      simp only [dedupFilter, if_neg hx]
      have hcongr : dedupFilter ((acc ++ [x]).map UrlEntry.url) xs
          = dedupFilter (x.url :: acc.map UrlEntry.url) xs := by
        refine dedupFilter_congr xs fun u => ?_
        simp only [List.map_append, List.map_cons, List.map_nil, List.mem_append,
          List.mem_cons, List.mem_singleton, List.not_mem_nil]
        tauto
      rw [hcongr, List.append_assoc]
      rfl

/-- The filter-based deduplication refines the first-occurrence spec. -/
lemma dedupFilter_eq_spec (xs : List UrlEntry) :
    dedupFilter [] xs = dedupFirstSpec xs := by
  rw [dedupFirstSpec, foldl_dedupFirstSpec xs []]
  rfl

/-- Membership after a `Map.set`: an old pair or the inserted one. -/
lemma mem_mapSet (m : List (String × UrlEntry)) : ∀ (k : String) (v : UrlEntry)
    (p : String × UrlEntry), p ∈ mapSet m k v → p ∈ m ∨ p = (k, v) := by
  induction m with
  | nil =>
    intro k v p hp
    simp only [mapSet, List.mem_singleton] at hp
    exact Or.inr hp
  | cons q m ih =>
    intro k v p hp
    obtain ⟨k₁, v₁⟩ := q
    simp only [mapSet] at hp
    by_cases hk : k₁ = k
    · rw [if_pos hk] at hp
      rcases List.mem_cons.mp hp with rfl | h₁
      · exact Or.inr (by rw [hk])
      · exact Or.inl (List.mem_cons_of_mem _ h₁)
    · rw [if_neg hk] at hp
      rcases List.mem_cons.mp hp with rfl | h₁
      · exact Or.inl (List.mem_cons_self _ _)
      · rcases ih k v p h₁ with h₂ | h₂
        · exact Or.inl (List.mem_cons_of_mem _ h₂)
        · exact Or.inr h₂

/-- `Map.set` on a present key keeps the key sequence. -/
lemma mapSet_keys_of_mem (m : List (String × UrlEntry)) : ∀ (k : String) (v : UrlEntry),
    k ∈ m.map Prod.fst → (mapSet m k v).map Prod.fst = m.map Prod.fst := by
  induction m with
  | nil => intro k v hk; simp at hk
  | cons q m ih =>
    intro k v hk
    obtain ⟨k₁, v₁⟩ := q
    simp only [mapSet]
    by_cases h : k₁ = k
    · rw [if_pos h]; simp
    · rw [if_neg h]
      simp only [List.map_cons]
      simp only [List.map_cons, List.mem_cons] at hk
      rcases hk with hk | hk
      · exact absurd hk.symm h
      · rw [ih k v hk]

/-- `Map.set` on an absent key appends the pair. -/
lemma mapSet_of_not_mem (m : List (String × UrlEntry)) : ∀ (k : String) (v : UrlEntry),
    k ∉ m.map Prod.fst → mapSet m k v = m ++ [(k, v)] := by
  induction m with
  | nil => intro k v _; rfl
  | cons q m ih =>
    intro k v hk
    obtain ⟨k₁, v₁⟩ := q
    simp only [List.map_cons, List.mem_cons] at hk
    push_neg at hk
    have hne : ¬ k₁ = k := fun h => hk.1 h.symm
    simp only [mapSet, if_neg hne, List.cons_append]
    rw [ih k v hk.2]

/-- `Map.set` grows the map by at most one pair. -/
lemma mapSet_length_le (m : List (String × UrlEntry)) : ∀ (k : String) (v : UrlEntry),
    (mapSet m k v).length ≤ m.length + 1 := by
  induction m with
  | nil => intro k v; simp [mapSet]
  | cons q m ih =>
    intro k v
    obtain ⟨k₁, v₁⟩ := q
    simp only [mapSet]
    by_cases h : k₁ = k
    · rw [if_pos h]; simp
    · rw [if_neg h]
      simp only [List.length_cons]
      exact Nat.succ_le_succ (ih k v)

/-- Folding `Map.set` over a list grows the map by at most its length. -/
lemma foldl_mapSet_length (l : List UrlEntry) : ∀ (m : List (String × UrlEntry)),
    (l.foldl (fun m item => mapSet m item.url item) m).length ≤ m.length + l.length := by
  induction l with
  | nil => intro m; simp
  | cons x l ih =>
    intro m
    simp only [List.foldl_cons, List.length_cons]
    have h₁ := ih (mapSet m x.url x)
    have h₂ := mapSet_length_le m x.url x
    omega

/-- The key sequence of the built map is the first-seen address sequence. -/
lemma foldl_mapSet_keys (l : List UrlEntry) : ∀ (m : List (String × UrlEntry)),
    (l.foldl (fun m item => mapSet m item.url item) m).map Prod.fst =
      m.map Prod.fst ++ (dedupFilter (m.map Prod.fst) l).map UrlEntry.url := by
  induction l with
  | nil => intro m; simp [dedupFilter]
  | cons x l ih =>
    intro m
    simp only [List.foldl_cons, dedupFilter]
    by_cases hx : x.url ∈ m.map Prod.fst
    · rw [if_pos hx, ih (mapSet m x.url x), mapSet_keys_of_mem m x.url x hx]
    · rw [if_neg hx, ih (mapSet m x.url x), mapSet_of_not_mem m x.url x hx]
      have hcongr : dedupFilter ((m ++ [(x.url, x)]).map Prod.fst) l
          = dedupFilter (x.url :: m.map Prod.fst) l := by
        refine dedupFilter_congr l fun u => ?_
        simp only [List.map_append, List.map_cons, List.map_nil, List.mem_append,
          List.mem_cons, List.mem_singleton, List.not_mem_nil]
        tauto
      rw [hcongr]
      simp [List.append_assoc]

/-- Every value in the built map carries its own key as url. -/
lemma foldl_mapSet_snd_url (l : List UrlEntry) : ∀ (m : List (String × UrlEntry)),
    (∀ p ∈ m, p.2.url = p.1) →
    ∀ p ∈ l.foldl (fun m item => mapSet m item.url item) m, p.2.url = p.1 := by
  induction l with
  | nil => intro m hm; exact hm
  | cons x l ih =>
    intro m hm
    simp only [List.foldl_cons]
    refine ih (mapSet m x.url x) ?_
    intro p hp
    rcases mem_mapSet m x.url x p hp with h | rfl
    · exact hm p h
    · rfl

/-- On a list of pairwise-distinct addresses the built map just pairs each
entry with its address. -/
lemma foldl_mapSet_of_nodup (l : List UrlEntry) : ∀ (m : List (String × UrlEntry)),
    (m.map Prod.fst ++ l.map UrlEntry.url).Nodup →
    l.foldl (fun m item => mapSet m item.url item) m =
      m ++ l.map (fun v => (v.url, v)) := by
  induction l with
  | nil => intro m _; simp
  | cons x l ih =>
    intro m hnd
    have hx : x.url ∉ m.map Prod.fst := by
      intro c
      rcases List.nodup_append.mp hnd with ⟨_, _, hdisj⟩
      exact hdisj c (by simp)
    simp only [List.foldl_cons]
    rw [mapSet_of_not_mem m x.url x hx]
    rw [ih (m ++ [(x.url, x)]) (by simpa [List.append_assoc] using hnd)]
    simp [List.append_assoc]

/-- The two deduplication routes keep the same addresses in the same
first-seen order. -/
lemma dedupMap_map_url (l : List UrlEntry) :
    (dedupMap l).map UrlEntry.url = (dedupFilter [] l).map UrlEntry.url := by
  have hsnd : ∀ p ∈ buildMap l, p.2.url = p.1 :=
    foldl_mapSet_snd_url l [] (by intro p hp; simp at hp)
  have hkeys := foldl_mapSet_keys l []
  simp only [List.map_nil, List.nil_append] at hkeys
  rw [dedupMap, List.map_map]
  rw [show (buildMap l).map (UrlEntry.url ∘ Prod.snd) = (buildMap l).map Prod.fst from
    List.map_congr_left fun p hp => hsnd p hp]
  exact hkeys

/-- The `Map`-based deduplication is idempotent. -/
lemma dedupMap_idem (l : List UrlEntry) : dedupMap (dedupMap l) = dedupMap l := by
  have hnd : ((dedupMap l).map UrlEntry.url).Nodup := by
    rw [dedupMap_map_url]; exact dedupFilter_map_url_nodup l []
  have h := foldl_mapSet_of_nodup (dedupMap l) [] (by simpa using hnd)
  rw [show dedupMap (dedupMap l) = (buildMap (dedupMap l)).map Prod.snd from rfl,
    buildMap, h]
  rw [List.nil_append, List.map_map]
  exact (List.map_congr_left fun v _ => rfl).trans (List.map_id _)

/-- The `Map`-based deduplication never lengthens the list. -/
lemma dedupMap_length_le (l : List UrlEntry) : (dedupMap l).length ≤ l.length := by
  rw [dedupMap, List.length_map]
  simpa using foldl_mapSet_length l []

/-- C7: both deduplication routines are idempotent, never lengthen their
input, and map the empty catalog to the empty output. -/
theorem dedup_algebraic_properties (xs : List UrlEntry) :
    dedupFilter [] (dedupFilter [] xs) = dedupFilter [] xs ∧
    (dedupFilter [] xs).length ≤ xs.length ∧
    dedupFilter [] ([] : List UrlEntry) = [] ∧
    dedupMap (dedupMap xs) = dedupMap xs ∧
    (dedupMap xs).length ≤ xs.length ∧
    dedupMap [] = [] := by
  refine ⟨?_, dedupFilter_length_le xs [], rfl, dedupMap_idem xs, dedupMap_length_le xs, rfl⟩
  exact dedupFilter_eq_self _ [] (dedupFilter_map_url_nodup xs [])
    (fun e _ => List.not_mem_nil _)

/-- C1 counterexample: the `Map`-based deduplication of `runAdvancedPingTest`
applied to two entries sharing an address keeps the SECOND entry, not the
first occurrence the claim promises. -/
theorem dedupMap_keeps_last_counterexample :
    dedupMap [{ name := "A", url := "http://a.example", type := "FTP" },
              { name := "B", url := "http://a.example", type := "FTP" }] ≠
      [{ name := "A", url := "http://a.example", type := "FTP" }] := by
  decide

/-- C1 (amended): both routines keep exactly one entry per distinct address
in first-seen address order; the filter-based one (`listUpUrls`) keeps the
first occurrence — it coincides with the first-occurrence spec — while the
`Map`-based one (`runAdvancedPingTest`) keeps the last occurrence, so two
entries with identical addresses deduplicate to the first entry under the
filter route and to the second under the `Map` route. -/
theorem dedup_first_occurrence (xs : List UrlEntry) (e₁ e₂ : UrlEntry)
    (h : e₁.url = e₂.url) :
    dedupFilter [] xs = dedupFirstSpec xs ∧
    (dedupMap xs).map UrlEntry.url = (dedupFilter [] xs).map UrlEntry.url ∧
    dedupFilter [] [e₁, e₂] = [e₁] ∧
    dedupMap [e₁, e₂] = [e₂] := by
  refine ⟨dedupFilter_eq_spec xs, dedupMap_map_url xs, ?_, ?_⟩
  · simp [dedupFilter, h]
  · simp [dedupMap, buildMap, mapSet, h]

/-- Closed instance of `dedup_first_occurrence` on a concrete catalog. -/
theorem dedup_first_occurrence_witness :
    ({ name := "A", url := "http://a.example", type := "FTP" } : UrlEntry).url =
      ({ name := "B", url := "http://a.example", type := "FTP" } : UrlEntry).url ∧
    (dedupFilter [] [{ name := "C", url := "http://c.example", type := "TV" }] =
        dedupFirstSpec [{ name := "C", url := "http://c.example", type := "TV" }] ∧
      (dedupMap [{ name := "C", url := "http://c.example", type := "TV" }]).map UrlEntry.url =
        (dedupFilter [] [{ name := "C", url := "http://c.example", type := "TV" }]).map UrlEntry.url ∧
      dedupFilter [] [{ name := "A", url := "http://a.example", type := "FTP" },
                      { name := "B", url := "http://a.example", type := "FTP" }] =
        [{ name := "A", url := "http://a.example", type := "FTP" }] ∧
      dedupMap [{ name := "A", url := "http://a.example", type := "FTP" },
                { name := "B", url := "http://a.example", type := "FTP" }] =
        [{ name := "B", url := "http://a.example", type := "FTP" }]) :=
  ⟨rfl, dedup_first_occurrence [{ name := "C", url := "http://c.example", type := "TV" }]
    { name := "A", url := "http://a.example", type := "FTP" }
    { name := "B", url := "http://a.example", type := "FTP" } rfl⟩

/-! ### Batch partitioning lemmas -/

/-- The stride loop on a nonempty list with a positive batch size. -/
lemma sliceBatches_cons (x : UrlEntry) (xs : List UrlEntry) (b : ℕ) :
    sliceBatches (x :: xs) (b + 1) =
      (x :: xs).take (b + 1) :: sliceBatches ((x :: xs).drop (b + 1)) (b + 1) := by
  rw [sliceBatches]

/-- Batch count, batch size bound, and flattening for the stride loop. -/
lemma sliceBatches_spec (b : ℕ) (l : List UrlEntry) :
    (sliceBatches l (b + 1)).length = (l.length + b) / (b + 1) ∧
    (∀ c ∈ sliceBatches l (b + 1), c.length ≤ b + 1) ∧
    (sliceBatches l (b + 1)).flatten = l := by
  suffices H : ∀ n (l : List UrlEntry), l.length ≤ n →
      (sliceBatches l (b + 1)).length = (l.length + b) / (b + 1) ∧
      (∀ c ∈ sliceBatches l (b + 1), c.length ≤ b + 1) ∧
      (sliceBatches l (b + 1)).flatten = l from H l.length l le_rfl
  intro n
  induction n with
  | zero =>
    intro l hl
    have hnil : l = [] := List.eq_nil_of_length_eq_zero (Nat.le_zero.mp hl)
    subst hnil
    refine ⟨?_, by simp [sliceBatches], by simp [sliceBatches]⟩
    simp [sliceBatches, Nat.div_eq_of_lt (Nat.lt_succ_of_le (Nat.le_refl b))]
  | succ n ih =>
    intro l hl
    match l with
    | [] =>
      refine ⟨?_, by simp [sliceBatches], by simp [sliceBatches]⟩
      simp [sliceBatches, Nat.div_eq_of_lt (Nat.lt_succ_of_le (Nat.le_refl b))]
    | x :: xs =>
      rw [sliceBatches_cons]
      have hdrop : ((x :: xs).drop (b + 1)).length ≤ n := by
        simp only [List.length_drop, List.length_cons]
        simp only [List.length_cons] at hl
        omega
      obtain ⟨ih₁, ih₂, ih₃⟩ := ih _ hdrop
      refine ⟨?_, ?_, ?_⟩
      · simp only [List.length_cons, ih₁, List.length_drop]
        have key : (xs.length + 1 + b) / (b + 1) = xs.length / (b + 1) + 1 := by
          rw [show xs.length + 1 + b = xs.length + (b + 1) by omega,
            Nat.add_div_right _ (Nat.succ_pos b)]
        have key₂ : (xs.length + 1 - (b + 1) + b) / (b + 1) = xs.length / (b + 1) := by
          rcases Nat.le_total (b + 1) (xs.length + 1) with h | h
          · congr 1
            omega
          · rw [Nat.div_eq_of_lt (by omega), Nat.div_eq_of_lt (by omega)]
        rw [key, key₂]
      · intro c hc
        rcases List.mem_cons.mp hc with rfl | hc₁
        · exact (List.length_take_le _ _)
        · exact ih₂ c hc₁
      · simp only [List.flatten_cons, ih₃, List.take_append_drop]

/-- C5: with batch size B > 0 the dispatcher forms exactly ceil(N/B)
batches, each holding at most B endpoints, whose concatenation is the input
in order; the results list is batch 0's results in full, then batch 1's, and
so on — each batch being mapped through the prober — so it equals the direct
map of the prober over the deduplicated input.  Intra-batch concurrency is
the `Promise.all` join this map models; its completion order is not part of
the collected value. -/
theorem batch_dispatch_spec {β : Type} (probeFn : UrlEntry → β) (l : List UrlEntry)
    (b : ℕ) (hb : 0 < b) :
    (sliceBatches l b).length = (l.length + b - 1) / b ∧
    (∀ c ∈ sliceBatches l b, c.length ≤ b) ∧
    (sliceBatches l b).flatten = l ∧
    batchedResults probeFn l b = l.map probeFn := by
  obtain ⟨b, rfl⟩ : ∃ b', b = b' + 1 := ⟨b - 1, by omega⟩
  obtain ⟨h₁, h₂, h₃⟩ := sliceBatches_spec b l
  refine ⟨?_, h₂, h₃, ?_⟩
  · rw [show l.length + (b + 1) - 1 = l.length + b by omega]
    exact h₁
  · rw [batchedResults, ← List.map_flatten, h₃]

/-- Closed instance of `batch_dispatch_spec`: three endpoints, batch size
two — two batches of sizes two and one. -/
theorem batch_dispatch_spec_witness :
    (0 : ℕ) < 2 ∧
    ((sliceBatches [{ name := "A", url := "http://a.example", type := "FTP" },
                    { name := "B", url := "http://b.example", type := "FTP" },
                    { name := "C", url := "http://c.example", type := "TV" }] 2).length =
        (([{ name := "A", url := "http://a.example", type := "FTP" },
           { name := "B", url := "http://b.example", type := "FTP" },
           { name := "C", url := "http://c.example", type := "TV" }] :
             List UrlEntry).length + 2 - 1) / 2 ∧
      (∀ c ∈ sliceBatches [{ name := "A", url := "http://a.example", type := "FTP" },
                           { name := "B", url := "http://b.example", type := "FTP" },
                           { name := "C", url := "http://c.example", type := "TV" }] 2,
        c.length ≤ 2) ∧
      (sliceBatches [{ name := "A", url := "http://a.example", type := "FTP" },
                     { name := "B", url := "http://b.example", type := "FTP" },
                     { name := "C", url := "http://c.example", type := "TV" }] 2).flatten =
        [{ name := "A", url := "http://a.example", type := "FTP" },
         { name := "B", url := "http://b.example", type := "FTP" },
         { name := "C", url := "http://c.example", type := "TV" }] ∧
      batchedResults UrlEntry.url
          [{ name := "A", url := "http://a.example", type := "FTP" },
           { name := "B", url := "http://b.example", type := "FTP" },
           { name := "C", url := "http://c.example", type := "TV" }] 2 =
        ([{ name := "A", url := "http://a.example", type := "FTP" },
          { name := "B", url := "http://b.example", type := "FTP" },
          { name := "C", url := "http://c.example", type := "TV" }] :
            List UrlEntry).map UrlEntry.url) :=
  ⟨by decide, batch_dispatch_spec UrlEntry.url
    [{ name := "A", url := "http://a.example", type := "FTP" },
     { name := "B", url := "http://b.example", type := "FTP" },
     { name := "C", url := "http://c.example", type := "TV" }] 2 (by decide)⟩

/-! ### Multi-attempt prober lemmas -/

/-- The attempt loop pushes exactly one raw slot per configured attempt. -/
lemma rawResults_length (cfg : PingConfig) (probe : ℕ → ProbeOutcome) :
    (rawResults cfg probe).length = cfg.attempts := by
  simp [rawResults]

/-- The alive slots are no more numerous than the attempts. -/
lemma filter_rawResults_le (cfg : PingConfig) (probe : ℕ → ProbeOutcome) :
    ((rawResults cfg probe).filter (fun r => r.alive)).length ≤ cfg.attempts :=
  le_trans (List.length_filter_le _ _) (le_of_eq (rawResults_length cfg probe))

/-- Projections of `advancedPingUrl` on the normal path (host extraction
succeeded). -/
lemma advancedPingUrl_ok_proj (entry : UrlEntry) (cfg : PingConfig)
    (parseURL : String → Option URLParts) (probe : ℕ → ProbeOutcome)
    (dnsAnswer : String → DnsInfo) (tt : ℚ) (ts : String) (hp : HostPort)
    (hE : extractHostAndPort parseURL entry.url = Except.ok hp) :
    (advancedPingUrl entry cfg parseURL probe dnsAnswer tt ts).attempts = cfg.attempts ∧
    (advancedPingUrl entry cfg parseURL probe dnsAnswer tt ts).successfulPings =
      ((rawResults cfg probe).filter (fun r => r.alive)).length ∧
    (advancedPingUrl entry cfg parseURL probe dnsAnswer tt ts).statistics.loss =
      ((cfg.attempts : ℚ) - ((rawResults cfg probe).filter (fun r => r.alive)).length) /
        cfg.attempts * 100 ∧
    (advancedPingUrl entry cfg parseURL probe dnsAnswer tt ts).status =
      (if ((rawResults cfg probe).filter (fun r => r.alive)).length = cfg.attempts then Status.UP
       else if 0 < ((rawResults cfg probe).filter (fun r => r.alive)).length then Status.PARTIAL
       else Status.DOWN) ∧
    (advancedPingUrl entry cfg parseURL probe dnsAnswer tt ts).rawPingResults =
      rawResults cfg probe ∧
    (advancedPingUrl entry cfg parseURL probe dnsAnswer tt ts).error = none := by
  simp only [advancedPingUrl, hE, List.length_map]
  exact ⟨trivial, trivial, trivial, trivial, trivial, trivial⟩

/-- Projections of `advancedPingUrl` on the exception path (host extraction
threw). -/
lemma advancedPingUrl_err_proj (entry : UrlEntry) (cfg : PingConfig)
    (parseURL : String → Option URLParts) (probe : ℕ → ProbeOutcome)
    (dnsAnswer : String → DnsInfo) (tt : ℚ) (ts : String) (msg : String)
    (hE : extractHostAndPort parseURL entry.url = Except.error msg) :
    (advancedPingUrl entry cfg parseURL probe dnsAnswer tt ts).attempts = cfg.attempts ∧
    (advancedPingUrl entry cfg parseURL probe dnsAnswer tt ts).successfulPings = 0 ∧
    (advancedPingUrl entry cfg parseURL probe dnsAnswer tt ts).statistics.loss = 100 ∧
    (advancedPingUrl entry cfg parseURL probe dnsAnswer tt ts).status = Status.DOWN ∧
    (advancedPingUrl entry cfg parseURL probe dnsAnswer tt ts).rawPingResults = [] ∧
    (advancedPingUrl entry cfg parseURL probe dnsAnswer tt ts).error = some msg := by
  simp only [advancedPingUrl, hE]
  exact ⟨trivial, trivial, trivial, trivial, trivial, trivial⟩

/-- The classification and loss invariant of `advancedPingUrl`, on both
paths, for at least one configured attempt. -/
lemma advancedPingUrl_invariant (entry : UrlEntry) (cfg : PingConfig)
    (parseURL : String → Option URLParts) (probe : ℕ → ProbeOutcome)
    (dnsAnswer : String → DnsInfo) (tt : ℚ) (ts : String)
    (ha : 0 < cfg.attempts) :
    (advancedPingUrl entry cfg parseURL probe dnsAnswer tt ts).attempts = cfg.attempts ∧
    (advancedPingUrl entry cfg parseURL probe dnsAnswer tt ts).successfulPings ≤ cfg.attempts ∧
    (advancedPingUrl entry cfg parseURL probe dnsAnswer tt ts).statistics.loss =
      ((cfg.attempts : ℚ) -
        (advancedPingUrl entry cfg parseURL probe dnsAnswer tt ts).successfulPings) /
          cfg.attempts * 100 ∧
    ((advancedPingUrl entry cfg parseURL probe dnsAnswer tt ts).status = Status.UP ↔
      (advancedPingUrl entry cfg parseURL probe dnsAnswer tt ts).successfulPings = cfg.attempts) ∧
    ((advancedPingUrl entry cfg parseURL probe dnsAnswer tt ts).status = Status.PARTIAL ↔
      0 < (advancedPingUrl entry cfg parseURL probe dnsAnswer tt ts).successfulPings ∧
        (advancedPingUrl entry cfg parseURL probe dnsAnswer tt ts).successfulPings < cfg.attempts) ∧
    ((advancedPingUrl entry cfg parseURL probe dnsAnswer tt ts).status = Status.DOWN ↔
      (advancedPingUrl entry cfg parseURL probe dnsAnswer tt ts).successfulPings = 0) := by
  cases hE : extractHostAndPort parseURL entry.url with
  | ok hp =>
    obtain ⟨h₁, h₂, h₃, h₄, _, _⟩ :=
      advancedPingUrl_ok_proj entry cfg parseURL probe dnsAnswer tt ts hp hE
    have hle := filter_rawResults_le cfg probe
    rw [h₁, h₂, h₃, h₄]
    set s := ((rawResults cfg probe).filter (fun r => r.alive)).length with hs_def
    refine ⟨rfl, hle, rfl, ?_, ?_, ?_⟩
    · constructor
      · intro h
        by_contra hne
        rw [if_neg hne] at h
        by_cases hz : 0 < s
        · rw [if_pos hz] at h; exact Status.noConfusion h
        · rw [if_neg hz] at h; exact Status.noConfusion h
      · intro h
        rw [if_pos h]
    · constructor
      · intro h
        by_cases hs₁ : s = cfg.attempts
        · rw [if_pos hs₁] at h; exact Status.noConfusion h
        · by_cases hz : 0 < s
          · exact ⟨hz, lt_of_le_of_ne hle hs₁⟩
          · rw [if_neg hs₁, if_neg hz] at h; exact Status.noConfusion h
      · rintro ⟨hz, hlt⟩
        rw [if_neg (Nat.ne_of_lt hlt), if_pos hz]
    · constructor
      · intro h
        by_cases hs₁ : s = cfg.attempts
        · rw [if_pos hs₁] at h; exact Status.noConfusion h
        · by_cases hz : 0 < s
          · rw [if_neg hs₁, if_pos hz] at h; exact Status.noConfusion h
          · omega
      · intro h
        rw [if_neg (by omega : ¬ s = cfg.attempts), if_neg (by omega : ¬ 0 < s)]
  | error msg =>
    obtain ⟨h₁, h₂, h₃, h₄, _, _⟩ :=
      advancedPingUrl_err_proj entry cfg parseURL probe dnsAnswer tt ts msg hE
    rw [h₁, h₂, h₃, h₄]
    have haQ : (cfg.attempts : ℚ) ≠ 0 := Nat.cast_ne_zero.mpr (by omega)
    refine ⟨rfl, Nat.zero_le _, ?_, ?_, ?_, ?_⟩
    · rw [Nat.cast_zero, sub_zero, div_self haQ, one_mul]
    · constructor
      · intro h; exact Status.noConfusion h
      · intro h; exact absurd h (by omega)
    · constructor
      · intro h; exact Status.noConfusion h
      · rintro ⟨hz, _⟩; exact absurd hz (lt_irrefl 0)
    · constructor
      · intro _; rfl
      · intro _; rfl

/-- C4: with at least one configured attempt the multi-attempt prober
classifies an endpoint UP exactly when every attempt succeeded, PARTIAL
exactly when some but not all succeeded, and DOWN exactly when none did;
the reported loss equals (failed / total) * 100 — instantiated at five
attempts: 5/5 successes give 0, 3/5 give 40, 0/5 give 100. -/
theorem multi_attempt_classification (entry : UrlEntry) (cfg : PingConfig)
    (parseURL : String → Option URLParts) (probe : ℕ → ProbeOutcome)
    (dnsAnswer : String → DnsInfo) (tt : ℚ) (ts : String)
    (ha : 0 < cfg.attempts) :
    ((advancedPingUrl entry cfg parseURL probe dnsAnswer tt ts).status = Status.UP ↔
      (advancedPingUrl entry cfg parseURL probe dnsAnswer tt ts).successfulPings =
        cfg.attempts) ∧
    ((advancedPingUrl entry cfg parseURL probe dnsAnswer tt ts).status = Status.PARTIAL ↔
      0 < (advancedPingUrl entry cfg parseURL probe dnsAnswer tt ts).successfulPings ∧
        (advancedPingUrl entry cfg parseURL probe dnsAnswer tt ts).successfulPings <
          cfg.attempts) ∧
    ((advancedPingUrl entry cfg parseURL probe dnsAnswer tt ts).status = Status.DOWN ↔
      (advancedPingUrl entry cfg parseURL probe dnsAnswer tt ts).successfulPings = 0) ∧
    (advancedPingUrl entry cfg parseURL probe dnsAnswer tt ts).statistics.loss =
      ((cfg.attempts : ℚ) -
        (advancedPingUrl entry cfg parseURL probe dnsAnswer tt ts).successfulPings) /
          cfg.attempts * 100 := by
  obtain ⟨_, _, h₃, h₄, h₅, h₆⟩ :=
    advancedPingUrl_invariant entry cfg parseURL probe dnsAnswer tt ts ha
  exact ⟨h₄, h₅, h₆, h₃⟩

/-- Closed instance of `multi_attempt_classification`: five attempts, three
of which come back alive. -/
theorem multi_attempt_classification_witness :
    0 < DEFAULT_CONFIG.attempts ∧
    (((advancedPingUrl sampleEntry DEFAULT_CONFIG sampleParse sampleProbe3of5 sampleDns
          0 "t").status = Status.UP ↔
        (advancedPingUrl sampleEntry DEFAULT_CONFIG sampleParse sampleProbe3of5 sampleDns
          0 "t").successfulPings = DEFAULT_CONFIG.attempts) ∧
      ((advancedPingUrl sampleEntry DEFAULT_CONFIG sampleParse sampleProbe3of5 sampleDns
          0 "t").status = Status.PARTIAL ↔
        0 < (advancedPingUrl sampleEntry DEFAULT_CONFIG sampleParse sampleProbe3of5 sampleDns
            0 "t").successfulPings ∧
          (advancedPingUrl sampleEntry DEFAULT_CONFIG sampleParse sampleProbe3of5 sampleDns
            0 "t").successfulPings < DEFAULT_CONFIG.attempts) ∧
      ((advancedPingUrl sampleEntry DEFAULT_CONFIG sampleParse sampleProbe3of5 sampleDns
          0 "t").status = Status.DOWN ↔
        (advancedPingUrl sampleEntry DEFAULT_CONFIG sampleParse sampleProbe3of5 sampleDns
          0 "t").successfulPings = 0) ∧
      (advancedPingUrl sampleEntry DEFAULT_CONFIG sampleParse sampleProbe3of5 sampleDns
          0 "t").statistics.loss =
        ((DEFAULT_CONFIG.attempts : ℚ) -
          (advancedPingUrl sampleEntry DEFAULT_CONFIG sampleParse sampleProbe3of5 sampleDns
            0 "t").successfulPings) / DEFAULT_CONFIG.attempts * 100) :=
  ⟨by decide, multi_attempt_classification sampleEntry DEFAULT_CONFIG sampleParse
    sampleProbe3of5 sampleDns 0 "t" (by decide)⟩

/-- C10: on both the normal and the exception path, the multi-attempt
prober's record satisfies successfulPings ≤ attempts, attempts equal to the
configured count, loss = ((attempts - successfulPings) / attempts) * 100,
UP forcing loss 0, DOWN forcing loss 100; and on the normal path the number
of raw per-attempt slots marked alive equals successfulPings. -/
theorem advanced_result_invariants (entry : UrlEntry) (cfg : PingConfig)
    (parseURL : String → Option URLParts) (probe : ℕ → ProbeOutcome)
    (dnsAnswer : String → DnsInfo) (tt : ℚ) (ts : String)
    (ha : 0 < cfg.attempts) :
    (advancedPingUrl entry cfg parseURL probe dnsAnswer tt ts).successfulPings ≤
      (advancedPingUrl entry cfg parseURL probe dnsAnswer tt ts).attempts ∧
    (advancedPingUrl entry cfg parseURL probe dnsAnswer tt ts).attempts = cfg.attempts ∧
    (advancedPingUrl entry cfg parseURL probe dnsAnswer tt ts).statistics.loss =
      (((advancedPingUrl entry cfg parseURL probe dnsAnswer tt ts).attempts : ℚ) -
        (advancedPingUrl entry cfg parseURL probe dnsAnswer tt ts).successfulPings) /
          (advancedPingUrl entry cfg parseURL probe dnsAnswer tt ts).attempts * 100 ∧
    ((advancedPingUrl entry cfg parseURL probe dnsAnswer tt ts).status = Status.UP →
      (advancedPingUrl entry cfg parseURL probe dnsAnswer tt ts).statistics.loss = 0) ∧
    ((advancedPingUrl entry cfg parseURL probe dnsAnswer tt ts).status = Status.DOWN →
      (advancedPingUrl entry cfg parseURL probe dnsAnswer tt ts).statistics.loss = 100) ∧
    (∀ hp, extractHostAndPort parseURL entry.url = Except.ok hp →
      ((advancedPingUrl entry cfg parseURL probe dnsAnswer tt ts).rawPingResults.filter
          (fun x => x.alive)).length =
        (advancedPingUrl entry cfg parseURL probe dnsAnswer tt ts).successfulPings) := by
  obtain ⟨h₁, h₂, h₃, h₄, _, h₆⟩ :=
    advancedPingUrl_invariant entry cfg parseURL probe dnsAnswer tt ts ha
  have haQ : (cfg.attempts : ℚ) ≠ 0 := Nat.cast_ne_zero.mpr (by omega)
  refine ⟨by rw [h₁]; exact h₂, h₁, ?_, ?_, ?_, ?_⟩
  · rw [h₁, h₃]
  · intro hUP
    rw [h₃, h₄.mp hUP, sub_self, zero_div, zero_mul]
  · intro hDOWN
    rw [h₃, h₆.mp hDOWN, Nat.cast_zero, sub_zero, div_self haQ, one_mul]
  · intro hp hE
    obtain ⟨_, hs₂, _, _, hr₅, _⟩ :=
      advancedPingUrl_ok_proj entry cfg parseURL probe dnsAnswer tt ts hp hE
    rw [hs₂, hr₅]

/-- Closed instance of `advanced_result_invariants`: five attempts that all
throw inside the loop. -/
theorem advanced_result_invariants_witness :
    0 < DEFAULT_CONFIG.attempts ∧
    ((advancedPingUrl sampleEntry DEFAULT_CONFIG sampleParse errProbe sampleDns
        0 "t").successfulPings ≤
      (advancedPingUrl sampleEntry DEFAULT_CONFIG sampleParse errProbe sampleDns
        0 "t").attempts ∧
    (advancedPingUrl sampleEntry DEFAULT_CONFIG sampleParse errProbe sampleDns
        0 "t").attempts = DEFAULT_CONFIG.attempts ∧
    (advancedPingUrl sampleEntry DEFAULT_CONFIG sampleParse errProbe sampleDns
        0 "t").statistics.loss =
      (((advancedPingUrl sampleEntry DEFAULT_CONFIG sampleParse errProbe sampleDns
          0 "t").attempts : ℚ) -
        (advancedPingUrl sampleEntry DEFAULT_CONFIG sampleParse errProbe sampleDns
          0 "t").successfulPings) /
          (advancedPingUrl sampleEntry DEFAULT_CONFIG sampleParse errProbe sampleDns
            0 "t").attempts * 100 ∧
    ((advancedPingUrl sampleEntry DEFAULT_CONFIG sampleParse errProbe sampleDns
        0 "t").status = Status.UP →
      (advancedPingUrl sampleEntry DEFAULT_CONFIG sampleParse errProbe sampleDns
        0 "t").statistics.loss = 0) ∧
    ((advancedPingUrl sampleEntry DEFAULT_CONFIG sampleParse errProbe sampleDns
        0 "t").status = Status.DOWN →
      (advancedPingUrl sampleEntry DEFAULT_CONFIG sampleParse errProbe sampleDns
        0 "t").statistics.loss = 100) ∧
    (∀ hp, extractHostAndPort sampleParse sampleEntry.url = Except.ok hp →
      ((advancedPingUrl sampleEntry DEFAULT_CONFIG sampleParse errProbe sampleDns
          0 "t").rawPingResults.filter (fun x => x.alive)).length =
        (advancedPingUrl sampleEntry DEFAULT_CONFIG sampleParse errProbe sampleDns
          0 "t").successfulPings)) :=
  ⟨by decide, advanced_result_invariants sampleEntry DEFAULT_CONFIG sampleParse errProbe
    sampleDns 0 "t" (by decide)⟩

/-- Host extraction when the parser throws and the regex fallback matches. -/
lemma extractHostAndPort_fallback (parseURL : String → Option URLParts) (u : String)
    (host : String) (p : Option String) (h₁ : parseURL u = none)
    (h₂ : fallbackMatch u = some (host, p)) :
    extractHostAndPort parseURL u = Except.ok
      { hostname := host
        port := match p with
          | some d => parseDigits d
          | none => if u.startsWith "https" then 443 else 80
        isHttps := u.startsWith "https" } := by
  cases p with
  | some d =>
    simp only [extractHostAndPort, h₁, h₂]
  | none =>
    simp only [extractHostAndPort, h₁, h₂]

/-- Host extraction when the parser throws and the regex fallback fails. -/
lemma extractHostAndPort_invalid (parseURL : String → Option URLParts) (u : String)
    (h₁ : parseURL u = none) (h₂ : fallbackMatch u = none) :
    extractHostAndPort parseURL u = Except.error "Invalid URL format" := by
  unfold extractHostAndPort
  rw [h₁, h₂]

/-- C3: when the URL constructor throws on an endpoint's address, the host
is extracted by the regex fallback; when even the fallback fails to match,
the probe result for that endpoint is DOWN carrying the descriptive error
"Invalid URL format" — `advancedPingUrl` still returns a record, so the run
over the remaining endpoints is not aborted. -/
theorem malformed_address_fallback (entry : UrlEntry) (cfg : PingConfig)
    (parseURL : String → Option URLParts) (probe : ℕ → ProbeOutcome)
    (dnsAnswer : String → DnsInfo) (tt : ℚ) (ts : String)
    (hthrow : parseURL entry.url = none) :
    (∀ host p, fallbackMatch entry.url = some (host, p) →
      ∃ hp, extractHostAndPort parseURL entry.url = Except.ok hp ∧ hp.hostname = host) ∧
    (fallbackMatch entry.url = none →
      (advancedPingUrl entry cfg parseURL probe dnsAnswer tt ts).status = Status.DOWN ∧
      (advancedPingUrl entry cfg parseURL probe dnsAnswer tt ts).error =
        some "Invalid URL format") := by
  constructor
  · intro host p hfb
    exact ⟨_, extractHostAndPort_fallback parseURL entry.url host p hthrow hfb, rfl⟩
  · intro hfb
    obtain ⟨_, _, _, h₄, _, h₆⟩ :=
      advancedPingUrl_err_proj entry cfg parseURL probe dnsAnswer tt ts _
        (extractHostAndPort_invalid parseURL entry.url hthrow hfb)
    exact ⟨h₄, h₆⟩

/-- Closed instance of `malformed_address_fallback` on an address neither
parser accepts. -/
theorem malformed_address_fallback_witness :
    noParse badEntry.url = none ∧
    ((∀ host p, fallbackMatch badEntry.url = some (host, p) →
      ∃ hp, extractHostAndPort noParse badEntry.url = Except.ok hp ∧ hp.hostname = host) ∧
    (fallbackMatch badEntry.url = none →
      (advancedPingUrl badEntry DEFAULT_CONFIG noParse sampleProbe3of5 sampleDns
        0 "t").status = Status.DOWN ∧
      (advancedPingUrl badEntry DEFAULT_CONFIG noParse sampleProbe3of5 sampleDns
        0 "t").error = some "Invalid URL format")) :=
  ⟨rfl, malformed_address_fallback badEntry DEFAULT_CONFIG noParse sampleProbe3of5
    sampleDns 0 "t" rfl⟩

/-- C8: failures are contained per probe attempt: when both the HEAD and
the fallback GET fetch throw, `pingUrl` returns a DOWN record carrying the
elapsed time and the thrown message instead of re-raising; and in the
multi-attempt prober any attempt whose probe throws is recorded as a dead
raw slot timed at the configured timeout. -/
theorem probe_failure_contained (entry : UrlEntry) (mh mg : String) (e₁ e₂ : ℚ)
    (cfg : PingConfig) (probe : ℕ → ProbeOutcome) (msg : String) (r : RawPing)
    (hr : r ∈ rawResults cfg probe)
    (hp : probe (r.attempt - 1) = ProbeOutcome.err msg) :
    (pingUrl entry (Except.error mh) (Except.error mg) e₁ e₂).status = Status.DOWN ∧
    (pingUrl entry (Except.error mh) (Except.error mg) e₁ e₂).responseTime = e₂ ∧
    (pingUrl entry (Except.error mh) (Except.error mg) e₁ e₂).error = some mg ∧
    r.alive = false ∧ r.time = cfg.timeout := by
  refine ⟨rfl, rfl, rfl, ?_⟩
  obtain ⟨i, hi, hri⟩ := List.mem_map.mp hr
  cases hpi : probe i with
  | ok alive t =>
    rw [hpi] at hri
    subst hri
    simp only [Nat.add_sub_cancel] at hp
    exact absurd hp (by rw [hpi]; exact fun c => ProbeOutcome.noConfusion c)
  | err m =>
    rw [hpi] at hri
    subst hri
    exact ⟨rfl, rfl⟩

/-- Closed instance of `probe_failure_contained`: both fetches throw and
every ping attempt throws. -/
theorem probe_failure_contained_witness :
    ({ alive := false, time := 5000, attempt := 1 } : RawPing) ∈
      rawResults DEFAULT_CONFIG errProbe ∧
    errProbe (({ alive := false, time := 5000, attempt := 1 } : RawPing).attempt - 1) =
      ProbeOutcome.err "socket error" ∧
    ((pingUrl sampleEntry (Except.error "HEAD failed") (Except.error "GET failed")
        7 9).status = Status.DOWN ∧
      (pingUrl sampleEntry (Except.error "HEAD failed") (Except.error "GET failed")
        7 9).responseTime = 9 ∧
      (pingUrl sampleEntry (Except.error "HEAD failed") (Except.error "GET failed")
        7 9).error = some "GET failed" ∧
      ({ alive := false, time := 5000, attempt := 1 } : RawPing).alive = false ∧
      ({ alive := false, time := 5000, attempt := 1 } : RawPing).time =
        DEFAULT_CONFIG.timeout) :=
  ⟨by decide, rfl, probe_failure_contained sampleEntry "HEAD failed" "GET failed" 7 9
    DEFAULT_CONFIG errProbe "socket error" { alive := false, time := 5000, attempt := 1 }
    (by decide) rfl⟩

/-- C6: latency statistics over an empty successful-sample list are all
zero, with loss 100. -/
theorem calculateStatistics_empty :
    (calculateStatistics []).min = 0 ∧ (calculateStatistics []).max = 0 ∧
    (calculateStatistics []).avg = 0 ∧ (calculateStatistics []).stddev = 0 ∧
    (calculateStatistics []).loss = 100 :=
  ⟨rfl, rfl, rfl, rfl, rfl⟩

/-- C9: the reported reachable lists are sorted ascending by latency — for
every pair of adjacent entries the earlier latency is at most the later —
and contain only reachable endpoints: the `fastCheck` list by response
time, the advanced report's list by average latency. -/
theorem reachable_sorted_by_latency (results : List SimpleResult)
    (advResults : List PingResult) :
    List.Chain' (fun a b => a.responseTime ≤ b.responseTime) (upSitesSorted results) ∧
    (∀ r ∈ upSitesSorted results, r.status = Status.UP) ∧
    List.Chain' (fun a b => a.statistics.avg ≤ b.statistics.avg)
      (upResultsSorted advResults) ∧
    (∀ r ∈ upResultsSorted advResults, r.status = Status.UP) := by
  haveI i₁ : IsTotal SimpleResult (fun a b => a.responseTime ≤ b.responseTime) :=
    ⟨fun a b => le_total _ _⟩
  haveI i₂ : IsTrans SimpleResult (fun a b => a.responseTime ≤ b.responseTime) :=
    ⟨fun _ _ _ hab hbc => le_trans hab hbc⟩
  haveI i₃ : IsTotal PingResult (fun a b => a.statistics.avg ≤ b.statistics.avg) :=
    ⟨fun a b => le_total _ _⟩
  haveI i₄ : IsTrans PingResult (fun a b => a.statistics.avg ≤ b.statistics.avg) :=
    ⟨fun _ _ _ hab hbc => le_trans hab hbc⟩
  unfold upSitesSorted upResultsSorted
  refine ⟨?_, ?_, ?_, ?_⟩
  · have hs : List.Sorted (fun a b : SimpleResult => a.responseTime ≤ b.responseTime)
        (List.insertionSort (fun a b => a.responseTime ≤ b.responseTime)
          (results.filter (fun r => r.status = Status.UP))) :=
      List.sorted_insertionSort _ _
    exact List.Pairwise.chain' hs
  · intro r hr
    have hmem := (List.perm_insertionSort
      (fun a b => a.responseTime ≤ b.responseTime)
      (results.filter (fun r => r.status = Status.UP))).mem_iff.mp hr
    have := List.mem_filter.mp hmem
    simpa using this.2
  · have hs : List.Sorted (fun a b : PingResult => a.statistics.avg ≤ b.statistics.avg)
        (List.insertionSort (fun a b => a.statistics.avg ≤ b.statistics.avg)
          (advResults.filter (fun r => r.status = Status.UP))) :=
      List.sorted_insertionSort _ _
    exact List.Pairwise.chain' hs
  · intro r hr
    have hmem := (List.perm_insertionSort
      (fun a b => a.statistics.avg ≤ b.statistics.avg)
      (advResults.filter (fun r => r.status = Status.UP))).mem_iff.mp hr
    have := List.mem_filter.mp hmem
    simpa using this.2

/-- The success-rate expression as a function of the two counts. -/
lemma successRateJS_eq (up total : ℕ) (h : up ≤ total) :
    successRateJS up total =
      (if total = 0 then JSNum.nan else JSNum.num ((up : ℚ) / total * 100)) := by
  by_cases ht : total = 0
  · subst ht
    have hz : up = 0 := Nat.le_zero.mp h
    subst hz
    simp [successRateJS, JSNum.div, JSNum.mul]
  · have htQ : ¬ (total : ℚ) = 0 := by
      simpa [Nat.cast_eq_zero] using ht
    simp [successRateJS, JSNum.div, JSNum.mul, ht, htQ]

/-- The filter-based deduplication is empty only on the empty catalog. -/
lemma dedupFilter_nil_iff (urls : List UrlEntry) :
    dedupFilter [] urls = [] ↔ urls = [] := by
  cases urls with
  | nil => simp [dedupFilter]
  | cons x xs => simp [dedupFilter]

/-- C2 counterexample: on the empty result set the computed success rate is
JavaScript's 0/0 — NaN — not the 0 the claim defines it to be. -/
theorem successRate_empty_counterexample :
    (fastCheckSummary []).successRate = JSNum.nan ∧
    (fastCheckSummary []).successRate ≠ JSNum.num 0 :=
  ⟨rfl, by decide⟩

/-- C2 (amended): aggregation is a total function with no thrown failure —
it always yields a summary — but with zero checked endpoints the computed
success rate is NaN (the unguarded JavaScript 0/0), not 0; on a nonempty
set it is (reachable count / total count) * 100.  The same holds for the
`listUpUrls` rate over the deduplicated catalog. -/
theorem successRate_total (results : List SimpleResult) (urls : List UrlEntry)
    (isUp : UrlEntry → Bool) :
    (fastCheckSummary results).successRate =
      (if results.length = 0 then JSNum.nan
       else JSNum.num (((results.filter (fun r => r.status = Status.UP)).length : ℚ) /
         results.length * 100)) ∧
    listUpSuccessRate urls isUp =
      (if urls = [] then JSNum.nan
       else JSNum.num ((((dedupFilter [] urls).filter isUp).length : ℚ) /
         (dedupFilter [] urls).length * 100)) := by
  constructor
  · rw [show (fastCheckSummary results).successRate =
        successRateJS (results.filter (fun r => r.status = Status.UP)).length
          results.length from rfl]
    rw [successRateJS_eq _ _ (List.length_filter_le _ _)]
  · rw [show listUpSuccessRate urls isUp =
        successRateJS ((dedupFilter [] urls).filter isUp).length
          (dedupFilter [] urls).length from rfl]
    rw [successRateJS_eq _ _ (List.length_filter_le _ _)]
    by_cases hu : urls = []
    · subst hu
      rw [if_pos rfl, if_pos (by rfl)]
    · rw [if_neg hu, if_neg ?_]
      intro hlen
      exact hu ((dedupFilter_nil_iff urls).mp (List.length_eq_zero.mp hlen))

end Bdix
